import Mathlib

/-!
Verification of the wellen waveform-reader core (VCD and GHW paths).

The Rust sources `src/vcd.rs` and `src/ghw/signals.rs` are shallowly embedded:
bytes are `Nat` values (with explicit bounds where u8/u64 wrap-around matters),
byte slices are `List Nat`, fallible readers return `Option`/`Except`, and the
mutable `VecBuffer` scratch structure becomes explicit state passing.
-/

namespace Wellen

/-! ## Byte-level helpers shared by both readers -/

/-- The bytes treated as whitespace throughout `vcd.rs`:
space, newline, carriage return, tab. -/
def isWs (b : Nat) : Bool :=
  b == 32 || b == 10 || b == 13 || b == 9

/-! ## VCD identifier codec (`id_to_int`, vcd.rs:499-519) -/

/-- `ID_CHAR_MIN` from vcd.rs (the byte value of the bang character). -/
def ID_CHAR_MIN : Nat := 33

/-- `ID_CHAR_MAX` from vcd.rs (the byte value of the tilde character). -/
def ID_CHAR_MAX : Nat := 126

/-- `NUM_ID_CHARS` from vcd.rs: `ID_CHAR_MAX - ID_CHAR_MIN + 1 = 94`. -/
def NUM_ID_CHARS : Nat := 94

/-- Largest value representable in Rust's `u64`; `checked_mul`/`checked_add`
return `None` beyond it. -/
def U64_MAX : Nat := 2 ^ 64 - 1

/-- The loop body of `id_to_int`: folds over the bytes of the identifier in
reverse order, accumulating `result = result * 94 + (byte - 33 + 1)` with
the `checked_mul`/`checked_add` overflow checks of the source
(`checked_mul` fails iff `result * 94 > U64_MAX`, and then `checked_add`
fails iff the sum exceeds `U64_MAX`; together they fail iff the exact sum
exceeds `U64_MAX`). -/
def idToIntGo : List Nat → Nat → Option Nat
  | [], result => some result
  | i :: rest, result =>
    if i < ID_CHAR_MIN ∨ ID_CHAR_MAX < i then none
    else
      let c := (i - ID_CHAR_MIN) + 1
      if U64_MAX < result * NUM_ID_CHARS + c then none
      else idToIntGo rest (result * NUM_ID_CHARS + c)

/-- `id_to_int` (vcd.rs:499-519): interprets a VCD identifier as a base-94
number, iterating over the bytes in reverse (`id.iter().rev()`), and returns
the 1-based value minus one. -/
def id_to_int (id : List Nat) : Option Nat :=
  if id.isEmpty then none
  else
    match idToIntGo id.reverse 0 with
    | none => none
    | some result => some (result - 1)

/-- The mathematical base-94 value of an identifier, least-significant byte
first: byte `b` contributes digit `b - 33 + 1`. This is the value `N` of the
specification, so that `id_to_int` returns `N - 1`. -/
def idValue : List Nat → Nat
  | [] => 0
  | b :: rest => (b - ID_CHAR_MIN + 1) + NUM_ID_CHARS * idValue rest

/-- Horner evaluation of the digits most-significant-first, as performed by
the reversed iteration inside `id_to_int`. -/
def hornerRev (acc : Nat) : List Nat → Nat
  | [] => acc
  | b :: rest => hornerRev (acc * NUM_ID_CHARS + (b - ID_CHAR_MIN + 1)) rest

/-! ## `read_until_end_token` (vcd.rs:740-773) -/

/-- `right_strip` (vcd.rs:809-817): pops trailing whitespace bytes from the
buffer; equivalently, drops the longest whitespace suffix. -/
def rightStrip (buf : List Nat) : List Nat :=
  (buf.reverse.dropWhile isWs).reverse

/-- The loop of `read_until_end_token`: `end_index` counts how many bytes of
the end token were recognized so far; `skipping` is the
`skipping_preceding_whitespace` flag. Returns the stripped buffer and the
unread remainder of the input; `none` models the `read_byte` I/O error on
end of input. Every byte is appended and the four end-token bytes are
truncated on recognition, exactly as in the source. -/
def read_until_end_token_go : List Nat → Nat → Bool → List Nat → Option (List Nat × List Nat)
  | [], _, _, _ => none
  | byte :: rest, end_index, skipping, buf =>
    if skipping && isWs byte then
      read_until_end_token_go rest end_index skipping buf
    else
      let buf' := buf ++ [byte]
      if end_index == 0 && byte == 36 then read_until_end_token_go rest 1 false buf'
      else if end_index == 1 && byte == 101 then read_until_end_token_go rest 2 false buf'
      else if end_index == 2 && byte == 110 then read_until_end_token_go rest 3 false buf'
      else if end_index == 3 && byte == 100 then
        some (rightStrip (buf'.take (buf'.length - 4)), rest)
      else read_until_end_token_go rest 0 false buf'

/-- `read_until_end_token` (vcd.rs:740-773), started with an empty buffer. -/
def read_until_end_token (input : List Nat) : Option (List Nat × List Nat) :=
  read_until_end_token_go input 0 true []

/-- Does the input start with the four bytes of the end token followed by
whitespace or the end of the body? (Used only by the claim-version below.) -/
def isEndTokenAt (l : List Nat) : Bool :=
  match l with
  | 36 :: 101 :: 110 :: 100 :: rest => rest.isEmpty || isWs (rest.headD 0)
  | _ => false

/-- Modelled from the spec: the claim's reading of `read_until_end_token`,
which terminates only when the four-byte end token is observed "with
whitespace or end-of-body immediately after it". Written to compare with
the source-translated function above. -/
def readUntilEndTokenSpecGo : List Nat → List Nat → Option (List Nat × List Nat)
  | [], _ => none
  | b :: rest, acc =>
    if isEndTokenAt (b :: rest) then some (rightStrip acc, (b :: rest).drop 4)
    else readUntilEndTokenSpecGo rest (acc ++ [b])

/-- Modelled from the spec: entry point of the claim-version, with the
leading whitespace stripped as the claim describes. -/
def readUntilEndTokenSpec (input : List Nat) : Option (List Nat × List Nat) :=
  readUntilEndTokenSpecGo (input.dropWhile isWs) []

/-! ## VCD header commands and attribute parsing (vcd.rs:126-178, 529-731) -/

/-- ASCII bytes of a string literal, for readable embeddings of the byte
constants of vcd.rs. -/
def strBytes (s : String) : List Nat :=
  s.data.map (fun c => c.toNat)

/-- The kinds of `VcdParseError` reachable in the modelled paths (message
payloads are dropped). `io` models an upstream `std::io::Error`, e.g. from
`read_byte` at end of input. `unmodelledCommand` marks header commands whose
arms are outside this embedding (they never arise in the theorems below). -/
inductive VcdErr where
  | vcdStartChar
  | unexpectedNumberOfTokens
  | unsupportedAttributeType
  | parseIntError
  | vhdlVarTypeError
  | vhdlDataTypeError
  | io
  | unmodelledCommand
  deriving DecidableEq

/-- Outcome of a fallible VCD parsing step: a value, a `VcdParseError`, or a
Rust panic (which the claims distinguish from returned errors). -/
inductive POutcome (α : Type) where
  | ok (a : α)
  | err (e : VcdErr)
  | panic
  deriving DecidableEq

/-- Is the byte an ASCII decimal digit? -/
def isDigit (b : Nat) : Bool :=
  48 ≤ b && b ≤ 57

/-- Accumulating decimal value of a digit string. -/
def digitsValGo (acc : Nat) : List Nat → Nat
  | [] => acc
  | b :: rest => digitsValGo (acc * 10 + (b - 48)) rest

/-- Model of `str::parse::<u64>()` on a byte token: an optional leading plus
sign, then at least one digit, failing on any other byte and on values
exceeding `u64::MAX`. -/
def parseU64Dec (s : List Nat) : Option Nat :=
  let digits := if s.headD 0 == 43 then s.tail else s
  if digits.isEmpty || !(digits.all isDigit) then none
  else if U64_MAX < digitsValGo 0 digits then none
  else some (digitsValGo 0 digits)

/-- Splitter used by `find_tokens` (vcd.rs:733-738): split the body on the
space byte only. -/
def splitSpacesGo (cur : List Nat) : List Nat → List (List Nat)
  | [] => [cur.reverse]
  | b :: rest =>
    if b == 32 then cur.reverse :: splitSpacesGo [] rest
    else splitSpacesGo (b :: cur) rest

/-- `find_tokens` (vcd.rs:733-738): split on spaces, drop empty pieces. -/
def find_tokens (line : List Nat) : List (List Nat) :=
  (splitSpacesGo [] line).filter (fun t => !t.isEmpty)

/-- `skip_whitespace` (vcd.rs:791-800): the first non-whitespace byte and
the remaining input; `none` models the I/O error at end of input. -/
def skip_whitespace : List Nat → Option (Nat × List Nat)
  | [] => none
  | b :: rest => if isWs b then skip_whitespace rest else some (b, rest)

/-- `read_token` (vcd.rs:775-788): append bytes into the buffer until a
whitespace byte, which is consumed and not stored. -/
def read_token : List Nat → List Nat → Option (List Nat × List Nat)
  | [], _ => none
  | b :: rest, buf => if isWs b then some (buf, rest) else read_token rest (buf ++ [b])

/-- The VCD header commands (vcd.rs:646-657). -/
inductive VcdCmd where
  | date
  | timescale
  | var
  | scope
  | upScope
  | comment
  | version
  | endDefinitions
  | attribute
  deriving DecidableEq

/-- `VcdCmd::from_bytes` (vcd.rs:660-673). -/
def VcdCmd.from_bytes (name : List Nat) : Option VcdCmd :=
  if name == strBytes "var" then some .var
  else if name == strBytes "scope" then some .scope
  else if name == strBytes "upscope" then some .upScope
  else if name == strBytes "date" then some .date
  else if name == strBytes "timescale" then some .timescale
  else if name == strBytes "comment" then some .comment
  else if name == strBytes "version" then some .version
  else if name == strBytes "enddefinitions" then some .endDefinitions
  else if name == strBytes "attrbegin" then some .attribute
  else none

/-- `read_command` (vcd.rs:706-731): skip whitespace, require the dollar
byte, read the command keyword (`from_bytes_or_panic` panics on an unknown
keyword), then read the body up to the end token. Returns the command, its
body, and the unread remainder. -/
def read_command (input : List Nat) : POutcome ((VcdCmd × List Nat) × List Nat) :=
  match skip_whitespace input with
  | none => .err .io
  | some (start_char, rest) =>
    if start_char ≠ 36 then .err .vcdStartChar
    else
      match read_token rest [] with
      | none => .err .io
      | some (name, rest2) =>
        match VcdCmd.from_bytes name with
        | none => .panic
        | some cmd =>
          match read_until_end_token rest2 with
          | none => .err .io
          | some (body, rest3) => .ok ((cmd, body), rest3)

/-- The decoded header attributes (vcd.rs `Attribute` as used there):
VHDL type info (opcode 02) and source location (opcode 04). Path-name
registration (opcode 03) yields no attribute. -/
inductive HdrAttribute where
  | vhdlTypeInfo (typeName : List Nat) (varType dataType : Nat)
  | sourceLoc (pathRef : Nat) (line : Nat) (isInstance : Bool)
  deriving DecidableEq

/-- `parse_attribute` (vcd.rs:126-178). `path_names` is the
`HashMap<u64, HierarchyStringId>` as an association list whose most recent
insertion shadows older ones; `next_string` models the hierarchy builder's
string interner (`add_string` returns the counter and bumps it). The
closed enumerations behind `TryFromPrimitive` for the VHDL var/data types
live in the external `fst_native` crate, so membership is abstracted as the
the two predicate parameters. UTF-8 validation of token bytes is not
modelled (the claims only exercise ASCII). In the opcode-04 branch the
unchecked index `path_names[&path_id]` panics when the key is absent. -/
def parse_attribute (isVarType isDataType : Nat → Bool) (tokens : List (List Nat))
    (path_names : List (Nat × Nat)) (next_string : Nat) :
    POutcome (Option HdrAttribute × List (Nat × Nat) × Nat) :=
  let t1 := tokens.getD 1 []
  if t1 == strBytes "02" then
    if tokens.length ≠ 4 then .err .unexpectedNumberOfTokens
    else
      match parseU64Dec (tokens.getD 3 []) with
      | none => .err .parseIntError
      | some arg =>
        let var_type := (arg >>> 10) % 256
        let data_type := (arg &&& 1023) % 256
        if !(isVarType var_type) then .err .vhdlVarTypeError
        else if !(isDataType data_type) then .err .vhdlDataTypeError
        else .ok (some (.vhdlTypeInfo (tokens.getD 2 []) var_type data_type),
          path_names, next_string)
  else if t1 == strBytes "03" then
    if tokens.length ≠ 4 then .err .unexpectedNumberOfTokens
    else
      match parseU64Dec (tokens.getD 3 []) with
      | none => .err .parseIntError
      | some id => .ok (none, (id, next_string) :: path_names, next_string + 1)
  else if t1 == strBytes "04" then
    if tokens.length ≠ 4 then .err .unexpectedNumberOfTokens
    else
      match parseU64Dec (tokens.getD 2 []) with
      | none => .err .parseIntError
      | some path_id =>
        match parseU64Dec (tokens.getD 3 []) with
        | none => .err .parseIntError
        | some line =>
          match path_names.lookup path_id with
          | none => .panic
          | some string_ref => .ok (some (.sourceLoc string_ref line false),
              path_names, next_string)
  else .err .unsupportedAttributeType

/-- One iteration of the `read_vcd_header` loop (vcd.rs:529-607) for an
input whose next command is `$attrbegin`: `read_command`, tokenization of
the body, the token-count and "misc" checks of the `VcdCmd::Attribute` arm
(vcd.rs:587-603), and the `HeaderCmd::MiscAttribute` callback which calls
`parse_attribute` (vcd.rs:292-297). Commands other than `$attrbegin`
dispatch to header arms outside this embedding and are reported as
`unmodelledCommand`. -/
def attrbegin_step (isVarType isDataType : Nat → Bool) (input : List Nat)
    (path_names : List (Nat × Nat)) (next_string : Nat) :
    POutcome (Option HdrAttribute × List (Nat × Nat) × Nat) :=
  match read_command input with
  | .err e => .err e
  | .panic => .panic
  | .ok ((cmd, body), _rest) =>
    match cmd with
    | .attribute =>
      let tokens := find_tokens body
      if tokens.length < 3 then .err .unexpectedNumberOfTokens
      else if tokens.getD 0 [] == strBytes "misc" then
        parse_attribute isVarType isDataType tokens path_names next_string
      else .err .unsupportedAttributeType
    | _ => .err .unmodelledCommand

/-! ## VCD body tokenizer (`BodyReader`, vcd.rs:1000-1173) -/

/-- `BodyCmd` (vcd.rs:1175-1178): a time command carrying the timestamp
digits, or a value change carrying the value token and the identifier. -/
inductive BodyCmd where
  | time (digits : List Nat)
  | value (v : List Nat) (id : List Nat)
  deriving DecidableEq

/-- The scalar-change first bytes of vcd.rs:1049-1050:
0 1 z Z x X h H u U w W l L and the dash. -/
def isScalarStart (b : Nat) : Bool :=
  b == 48 || b == 49 || b == 122 || b == 90 || b == 120 || b == 88 || b == 104 ||
  b == 72 || b == 117 || b == 85 || b == 119 || b == 87 || b == 108 || b == 76 || b == 45

/-- The two-token (vector/real/string) first bytes of vcd.rs:1074:
b B r R s S. -/
def isVectorStart (b : Nat) : Bool :=
  b == 98 || b == 66 || b == 114 || b == 82 || b == 115 || b == 83

/-- Result of `try_finish_token`: no command, an emitted command, or the
panic raised on an unexpected token pair (vcd.rs:1078-1083). -/
inductive TftOut where
  | noCmd
  | emit (cmd : BodyCmd)
  | panicOut
  deriving DecidableEq

/-- `BodyReader::try_finish_token` (vcd.rs:1019-1094) as a pure function of
the token slice so far, the pending first token, and the comment-skip flag;
returns the outcome, the updated pending token, the updated comment-skip
flag, and whether `token_start` is left set. The source clears
`token_start` on every path except the early returns: the empty-token
return, the too-short return for a 1-byte token (vcd.rs:1043-1045) — whose
token therefore keeps growing and merges with the following bytes,
whitespace included — and the `$dumpall` return (observably irrelevant, as
the emission ends the `next()` call and its local state). -/
def try_finish_token (token : List Nat) (prev_token : Option (List Nat))
    (search_for_end : Bool) : TftOut × Option (List Nat) × Bool × Bool :=
  if token.isEmpty then (.noCmd, prev_token, search_for_end, true)
  else if search_for_end then (.noCmd, prev_token, !(token == strBytes "$end"), false)
  else
    match prev_token with
    | none =>
      if token.length == 1 then (.noCmd, none, search_for_end, true)
      else if token.headD 0 == 35 then (.emit (.time token.tail), none, search_for_end, false)
      else if isScalarStart (token.headD 0) then
        (.emit (.value (token.take 1) token.tail), none, search_for_end, false)
      else if token == strBytes "$dumpall" then
        (.emit (.time (strBytes "0")), none, search_for_end, true)
      else if token == strBytes "$comment" then (.noCmd, none, true, false)
      else if token == strBytes "$dumpvars" || token == strBytes "$end" ||
          token == strBytes "$dumpoff" then (.noCmd, none, search_for_end, false)
      else (.noCmd, some token, search_for_end, false)
    | some first =>
      if isVectorStart (first.headD 0) then
        (.emit (.value first token), none, search_for_end, false)
      else (.panicOut, none, search_for_end, false)

/-- The whole-input run of the `BodyReader` iterator (vcd.rs:1097-1173):
`pos` is the byte position, `cur` the start and bytes of the token in
progress, `first_start` the reported start of the first constituent token,
`prev` the pending first token of a two-token command, `sfe` the
comment-skip flag. Successive `next()` calls re-enter the loop with the
token state reset, so the whole run is a single left-to-right pass. Returns
the emitted `(start_offset, command)` pairs and whether the reader panicked
(events before the panic are kept, as the caller has already consumed
them). -/
def tokenizeGo : List Nat → Nat → Option (Nat × List Nat) → Nat → Option (List Nat) →
    Bool → List (Nat × BodyCmd) × Bool
  | [], _, cur, first_start, prev, sfe =>
    match cur with
    | none => ([], false)
    | some (_, tok) =>
      match try_finish_token tok prev sfe with
      | (.emit cmd, _, _, _) => ([(first_start, cmd)], false)
      | (.panicOut, _, _, _) => ([], true)
      | (.noCmd, _, _, _) => ([], false)
  | b :: rest, pos, cur, first_start, prev, sfe =>
    if isWs b then
      match cur with
      | none => tokenizeGo rest (pos + 1) none first_start prev sfe
      | some (s, tok) =>
        match try_finish_token tok prev sfe with
        | (.emit cmd, _, _, _) =>
          let next := tokenizeGo rest (pos + 1) none 0 none false
          ((first_start, cmd) :: next.1, next.2)
        | (.panicOut, _, _, _) => ([], true)
        | (.noCmd, prev2, sfe2, keep) =>
          if keep then
            -- token_start stays set: the token slice input[start..] keeps
            -- growing, so the delimiter byte becomes part of the token
            tokenizeGo rest (pos + 1) (some (s, tok ++ [b])) first_start prev2 sfe2
          else
            tokenizeGo rest (pos + 1) none first_start prev2 sfe2
    else
      match cur with
      | none =>
        let fs := if prev.isNone then pos else first_start
        tokenizeGo rest (pos + 1) (some (pos, [b])) fs prev sfe
      | some (s, tok) => tokenizeGo rest (pos + 1) (some (s, tok ++ [b])) first_start prev sfe

/-- Run the body reader over a full input slice. -/
def tokenizeBody (input : List Nat) : List (Nat × BodyCmd) × Bool :=
  tokenizeGo input 0 none 0 none false

/-! ## VCD value-stream reading and chunking (vcd.rs:832-988) -/

/-- The encoder calls made by `read_single_stream_of_values`. The encoder is
an external collaborator, so its call trace is the observable: time changes
carry the timestamp digits (the source passes their decimal parse to
`Encoder::time_change`; the synthesized initial timestamp is the digit
zero), value changes carry the identifier and value bytes (the source
passes `id_to_int` of the identifier, or the hash-map lookup, to
`Encoder::vcd_value_change`). -/
inductive VcdEmission where
  | timeChange (digits : List Nat)
  | valueChange (id : List Nat) (v : List Nat)
  deriving DecidableEq

/-- The event-consumption loop of `read_single_stream_of_values`
(vcd.rs:938-985) over the reader's event stream: a time command whose
start position plus the resynchronization offset exceeds `stop_pos` breaks
the loop before being emitted; value changes before the first time step are
dropped (non-first chunk) or preceded by a synthesized zero timestamp
(first chunk). -/
def runStream : List (Nat × BodyCmd) → Nat → Nat → Bool → Bool → List VcdEmission
  | [], _, _, _, _ => []
  | (pos, cmd) :: rest, stop_pos, offset, is_first, found_first =>
    match cmd with
    | .time v =>
      if stop_pos < pos + offset then []
      else .timeChange v :: runStream rest stop_pos offset is_first true
    | .value v id =>
      if is_first && !found_first then
        .timeChange (strBytes "0") :: .valueChange id v ::
          runStream rest stop_pos offset is_first true
      else if found_first then
        .valueChange id v :: runStream rest stop_pos offset is_first found_first
      else runStream rest stop_pos offset is_first found_first

/-- `advance_to_first_newline` (vcd.rs:990-998). -/
def advance_to_first_newline (input : List Nat) : List Nat × Nat :=
  match input.findIdx? (fun b => b == 10) with
  | some pos => (input.drop pos, pos)
  | none => ([], 0)

/-- `read_single_stream_of_values` (vcd.rs:914-988): resynchronize to the
first newline unless the chunk starts on one, then run the reader and the
consumption loop. Returns the emission trace and whether the reader
panicked. -/
def read_single_stream_of_values (input : List Nat) (stop_pos : Nat)
    (is_first starts_on_new_line : Bool) : List VcdEmission × Bool :=
  let io := if starts_on_new_line then (input, 0) else advance_to_first_newline input
  let toks := tokenizeBody io.1
  (runStream toks.1 stop_pos io.2 is_first false, toks.2)

/-- `MIN_CHUNK_SIZE` (vcd.rs:832). -/
def MIN_CHUNK_SIZE : Nat := 8 * 1024

/-- `usize_div_ceil` (vcd.rs:835-837). -/
def usize_div_ceil (a b : Nat) : Nat := (a + b - 1) / b

/-- `determine_thread_chunks` (vcd.rs:848-857); `max_threads` stands for
`rayon::current_num_threads()`, a property of the environment. Each worker
`ii` receives start `ii * chunk_size` and nominal length `chunk_size`, and
is invoked with `stop_pos = chunk_size - 1` (vcd.rs:871-890). -/
def determine_thread_chunks (max_threads body_len : Nat) : List (Nat × Nat) :=
  let for_min := usize_div_ceil body_len MIN_CHUNK_SIZE
  let num_threads := min max_threads for_min
  let chunk_size := usize_div_ceil body_len num_threads
  (List.range num_threads).map (fun ii => (ii * chunk_size, chunk_size))

/-! ## GHW bit-vector change buffer (`VecBuffer`, ghw/signals.rs:235-448)

`SignalRef` (crate::hierarchy) is modelled by its dense index
(`signal_ref.index()`), a natural number. Rust slice indexing panics when
out of bounds; the embedding uses a defaulting getter and a bounds-checked
setter, and the theorems' hypotheses keep every access in range, so the
model and the source agree wherever the source does not panic. -/

/-- Modelled from the spec: `States` (crate::wavemem, outside these two
source files). A two-state slot is 1 bit wide and a nine-state slot 4 bits
(the spec's mask widths), so a byte holds 8 respectively 2 slots. -/
inductive States where
  | two
  | nine
  deriving DecidableEq

/-- Slot width in bits. -/
def States.bits : States → Nat
  | .two => 1
  | .nine => 4

/-- Slots per byte: 8 / bits. -/
def States.bits_in_a_byte : States → Nat
  | .two => 8
  | .nine => 2

/-- Mask covering one slot. -/
def States.mask : States → Nat
  | .two => 1
  | .nine => 15

/-- `VecBufferInfo` (ghw/signals.rs:245-253). -/
structure VecBufferInfo where
  data_start : Nat
  bit_change_start : Nat
  bits : Nat
  states : States
  deriving DecidableEq

/-- Length of `VecBufferInfo::change_range` (ghw/signals.rs:256-261):
`bits.div_ceil(8)` bytes starting at `bit_change_start`. -/
def VecBufferInfo.changeLen (info : VecBufferInfo) : Nat :=
  (info.bits + 7) / 8

/-- Length of `VecBufferInfo::data_range` (ghw/signals.rs:262-267):
`bits.div_ceil(bits_in_a_byte)` bytes starting at `data_start`. -/
def VecBufferInfo.dataLen (info : VecBufferInfo) : Nat :=
  (info.bits + info.states.bits_in_a_byte - 1) / info.states.bits_in_a_byte

/-- `VecBuffer` (ghw/signals.rs:237-243). -/
structure VecBuffer where
  info : List (Option VecBufferInfo)
  data : List Nat
  bit_change : List Nat
  change_list : List Nat
  signal_change : List Nat
  deriving DecidableEq

/-- Byte read (Rust slice indexing; out-of-bounds, a Rust panic, defaults
to 0 here and is excluded by the theorems' hypotheses). -/
def listGet (l : List Nat) (i : Nat) : Nat :=
  l.getD i 0

/-- Byte write (`List.set` leaves the list unchanged out of bounds, where
Rust would panic). -/
def listSet (l : List Nat) (i v : Nat) : List Nat :=
  l.set i v

/-- The `self.info[signal_ref.index()]` lookup; `none` for an undescribed
signal (where the source calls `.unwrap()` and would panic). -/
def VecBuffer.infoOf (b : VecBuffer) (sig : Nat) : Option VecBufferInfo :=
  b.info.getD sig none

/-- `VecBuffer::has_bit_changed` (ghw/signals.rs:391-396). -/
def VecBuffer.has_bit_changed (b : VecBuffer) (info : VecBufferInfo) (bit : Nat) : Bool :=
  ((listGet b.bit_change (info.bit_change_start + bit / 8)) >>> (bit % 8)) &&& 1 == 1

/-- `VecBuffer::mark_bit_changed` (ghw/signals.rs:398-405). -/
def mark_bit_changed (change : List Nat) (info : VecBufferInfo) (bit : Nat) : List Nat :=
  let idx := info.bit_change_start + bit / 8
  listSet change idx (listGet change idx ||| (1 <<< (bit % 8)))

/-- `VecBuffer::has_signal_changed` (ghw/signals.rs:407-412). -/
def VecBuffer.has_signal_changed (b : VecBuffer) (sig : Nat) : Bool :=
  ((listGet b.signal_change (sig / 8)) >>> (sig % 8)) &&& 1 == 1

/-- `VecBuffer::mark_signal_changed` (ghw/signals.rs:414-420): set the
signal bit and push the signal onto the change list. -/
def VecBuffer.mark_signal_changed (b : VecBuffer) (sig : Nat) : VecBuffer :=
  { b with
    signal_change :=
      listSet b.signal_change (sig / 8)
        (listGet b.signal_change (sig / 8) ||| (1 <<< (sig % 8))),
    change_list := b.change_list ++ [sig] }

/-- `VecBuffer::get_data_index` (ghw/signals.rs:440-447): byte index and
shift for a bit, MSB-first (bit `i` mirrored to `bits - 1 - i`). -/
def get_data_index (bits bit : Nat) (states : States) : Nat × Nat :=
  let mirrored := bits - 1 - bit
  (mirrored / states.bits_in_a_byte, (bit % states.bits_in_a_byte) * states.bits)

/-- `VecBuffer::get_value` (ghw/signals.rs:422-429). -/
def VecBuffer.get_value (b : VecBuffer) (info : VecBufferInfo) (bit : Nat) : Nat :=
  let is := get_data_index info.bits bit info.states
  ((listGet b.data (info.data_start + is.1)) >>> is.2) &&& info.states.mask

/-- `VecBuffer::set_value` (ghw/signals.rs:431-438); `255 ^^^ m` is the
8-bit complement `!m` of the slot mask. -/
def set_value (data : List Nat) (info : VecBufferInfo) (bit value : Nat) : List Nat :=
  let is := get_data_index info.bits bit info.states
  let idx := info.data_start + is.1
  let old_data := listGet data idx &&& (255 ^^^ (info.states.mask <<< is.2))
  listSet data idx (old_data ||| (value <<< is.2))

/-- `VecBuffer::is_second_change` (ghw/signals.rs:325-329). The `none`
branch is a Rust `.unwrap()` panic, unreachable for the signals the decoder
passes in. -/
def VecBuffer.is_second_change (b : VecBuffer) (sig bit value : Nat) : Bool :=
  match b.infoOf sig with
  | none => false
  | some info => b.has_bit_changed info bit && !(b.get_value info bit == value)

/-- `VecBuffer::update_value` (ghw/signals.rs:331-343): write only on a real
change, mark the bit, and add the signal to the change list unless its
signal-change bit is already set. -/
def VecBuffer.update_value (b : VecBuffer) (sig bit value : Nat) : VecBuffer :=
  match b.infoOf sig with
  | none => b
  | some info =>
    if !(b.get_value info bit == value) then
      let b2 := { b with
        bit_change := mark_bit_changed b.bit_change info bit,
        data := set_value b.data info bit value }
      if !(b2.has_signal_changed sig) then b2.mark_signal_changed sig else b2
    else b

/-- `VecBuffer::full_signal_has_changed` (ghw/signals.rs:345-368): all
change bytes after the first must be 0xff; when `bits` is not a multiple
of 8 the first byte is skipped in that scan and compared against the
low-bits mask `(1 << bits % 8) - 1` instead. -/
def VecBuffer.full_signal_has_changed (b : VecBuffer) (sig : Nat) : Bool :=
  match b.infoOf sig with
  | none => false
  | some info =>
    let changes := (b.bit_change.drop info.bit_change_start).take info.changeLen
    let skip := if info.bits % 8 == 0 then 0 else 1
    (changes.drop skip).all (fun e => e == 255) &&
      (if 0 < skip then changes.headD 0 == (1 <<< (info.bits % 8)) - 1 else true)

/-- Zero the `len` bytes starting at `start` (the `for e in changes.iter_mut`
loop of ghw/signals.rs:375-378). -/
def zeroRange (l : List Nat) (start len : Nat) : List Nat :=
  match len with
  | 0 => l
  | n + 1 => zeroRange (listSet l start 0) (start + 1) n

/-- `VecBuffer::get_full_value_and_clear_changes` (ghw/signals.rs:370-389):
clear the signal's bit-change bytes and its signal-change bit — the signal
stays on the change list — and return the current data bytes. -/
def VecBuffer.get_full_value_and_clear_changes (b : VecBuffer) (sig : Nat) :
    List Nat × VecBuffer :=
  match b.infoOf sig with
  | none => ([], b)
  | some info =>
    let byte := sig / 8
    let bit := sig % 8
    let b2 := { b with
      bit_change := zeroRange b.bit_change info.bit_change_start info.changeLen,
      signal_change :=
        listSet b.signal_change byte
          (listGet b.signal_change byte &&& (255 ^^^ (1 <<< bit))) }
    ((b2.data.drop info.data_start).take info.dataLen, b2)

/-- The encoder calls made by the GHW decoder paths modelled here;
`raw` is `Encoder::raw_value_change` and `realChange` is
`Encoder::real_change` (carrying the eight raw little-endian bytes — IEEE
floating point itself is not modelled). -/
inductive GhwEmission where
  | raw (sig : Nat) (data : List Nat) (states : States)
  | realChange (sig : Nat) (bytes : List Nat)
  deriving DecidableEq

/-- The signal a GHW emission is for. -/
def GhwEmission.sigOf : GhwEmission → Nat
  | .raw sig _ _ => sig
  | .realChange sig _ => sig

/-- The loop of `VecBuffer::process_changed_signals` (ghw/signals.rs:314-323)
over an owned change list: dispatch each listed signal whose signal-change
bit is still set, clearing as it goes. The `none` info branch is a Rust
`.unwrap()` panic, unreachable because every listed signal was added by
`mark_signal_changed` inside `update_value` after a successful lookup. -/
def processGo : VecBuffer → List Nat → VecBuffer × List GhwEmission
  | b, [] => (b, [])
  | b, sig :: rest =>
    if b.has_signal_changed sig then
      match b.infoOf sig with
      | none => processGo b rest
      | some info =>
        let dv := b.get_full_value_and_clear_changes sig
        let next := processGo dv.2 rest
        (next.1, .raw sig dv.1 info.states :: next.2)
    else processGo b rest

/-- `VecBuffer::process_changed_signals` (ghw/signals.rs:314-323):
`mem::take` empties the change list, then the taken list is processed. -/
def VecBuffer.process_changed_signals (b : VecBuffer) : VecBuffer × List GhwEmission :=
  processGo { b with change_list := [] } b.change_list

/-- `finish_time_step` (ghw/signals.rs:134-139): dispatch the remaining
vector changes through the encoder callback. -/
def finish_time_step (b : VecBuffer) : VecBuffer × List GhwEmission :=
  b.process_changed_signals

/-- The `NineStateBit`/`TwoStateBit` arms of `read_signal_value`
(ghw/signals.rs:158-197), given the already-decoded slot value (for nine
states that is `STD_LOGIC_LUT[byte]`; the lookup table lives in
ghw/common.rs, outside these sources, so the decoded value is a parameter):
flush on a second change to the same bit, write the value, and flush early
when the whole vector has changed. Returns the new buffer and the emissions
in order. -/
def bitUpdateStep (st : States) (b : VecBuffer) (sig bit value : Nat) :
    VecBuffer × List GhwEmission :=
  let fst :=
    if b.is_second_change sig bit value then
      let dv := b.get_full_value_and_clear_changes sig
      (dv.2, [GhwEmission.raw sig dv.1 st])
    else (b, [])
  let b2 := fst.1.update_value sig bit value
  if b2.full_signal_has_changed sig then
    let dv := b2.get_full_value_and_clear_changes sig
    (dv.2, fst.2 ++ [GhwEmission.raw sig dv.1 st])
  else (b2, fst.2)

/-- `SignalType` (ghw/common.rs, reconstructed from its uses in
ghw/signals.rs and the spec's data model). -/
inductive SignalType where
  | nineState
  | twoState
  | nineStateBit (bit total : Nat)
  | twoStateBit (bit total : Nat)
  | u8 (bits : Nat)
  | leb128Signed (bits : Nat)
  | f64
  deriving DecidableEq

/-- `GhwSignal`: the signal handle paired with its wire type. -/
structure GhwSignal where
  signal_ref : Nat
  tpe : SignalType
  deriving DecidableEq

/-- The loop of `VecBuffer::from_decode_info` (ghw/signals.rs:271-298):
assign scratch space once per `SignalRef`, only at the 0th bit of a
vector-of-bit signal type. -/
def fromDecodeInfoGo : List GhwSignal → List (Option VecBufferInfo) → Nat → Nat →
    List (Option VecBufferInfo) × Nat × Nat
  | [], info, data_start, bit_change_start => (info, data_start, bit_change_start)
  | sig :: rest, info, data_start, bit_change_start =>
    match info.getD sig.signal_ref none with
    | some _ => fromDecodeInfoGo rest info data_start bit_change_start
    | none =>
      match sig.tpe with
      | .nineStateBit 0 bits =>
        fromDecodeInfoGo rest
          (info.set sig.signal_ref (some ⟨data_start, bit_change_start, bits, .nine⟩))
          (data_start + (bits + 1) / 2) (bit_change_start + (bits + 7) / 8)
      | .twoStateBit 0 bits =>
        fromDecodeInfoGo rest
          (info.set sig.signal_ref (some ⟨data_start, bit_change_start, bits, .two⟩))
          (data_start + (bits + 7) / 8) (bit_change_start + (bits + 7) / 8)
      | _ => fromDecodeInfoGo rest info data_start bit_change_start

/-- `VecBuffer::from_decode_info` (ghw/signals.rs:271-312). -/
def VecBuffer.from_decode_info (signals : List GhwSignal) (signal_ref_count : Nat) :
    VecBuffer :=
  let r := fromDecodeInfoGo signals (List.replicate signal_ref_count none) 0 0
  { info := r.1
    data := List.replicate r.2.1 0
    bit_change := List.replicate r.2.2 0
    change_list := []
    signal_change := List.replicate ((signal_ref_count + 7) / 8) 0 }

/-! ## GHW cycle reading (ghw/signals.rs:109-233) -/

/-- GHW-path failures. `io` is an upstream read error, `leb128Overflow` the
leb128 crate's error for an encoding that does not fit in 64 bits,
`firstDeltaZero` the `FailedToParseSection("cycle", "Expected a first
delta > 0")` error, `indexPanic` the Rust panic of an out-of-bounds
`info.signals` index, and `outOfFuel` a modelling artifact of the explicit
recursion bound (never hit when the bound exceeds the input length, as
every loop iteration consumes at least one input byte). -/
inductive GhwErr where
  | io
  | leb128Overflow
  | firstDeltaZero
  | indexPanic
  | outOfFuel
  deriving DecidableEq

/-- `read_u8`: one byte from the stream. -/
def read_u8 : List Nat → Except GhwErr (Nat × List Nat)
  | [] => .error .io
  | b :: rest => .ok (b, rest)

/-- Modelled from the spec: unsigned LEB128 decode — the leb128 crate is an
external collaborator, and its u64 discipline matters: seven value bits per
byte, least significant group first, terminated by a byte with the high bit
clear; at shift 63 (the tenth byte) only the final bytes 0x00 and 0x01 are
accepted, anything else is the crate's Overflow error (the crate also
drains trailing continuation bytes before erring, which no claim observes),
so the accumulator always stays below 2^64 and the result is an exact u64.
Deltas as large as 2^64 - 1 are therefore accepted. -/
def leb128UnsignedGo : List Nat → Nat → Nat → Except GhwErr (Nat × List Nat)
  | [], _, _ => .error .io
  | b :: rest, shift, acc =>
    if shift == 63 && !(b == 0 || b == 1) then .error .leb128Overflow
    else
      let acc2 := acc ||| ((b &&& 127) <<< shift)
      if b &&& 128 == 0 then .ok (acc2, rest)
      else leb128UnsignedGo rest (shift + 7) acc2

/-- Unsigned LEB128 entry point. -/
def leb128_read_unsigned (input : List Nat) : Except GhwErr (Nat × List Nat) :=
  leb128UnsignedGo input 0 0

/-- Modelled from the spec: signed LEB128 decode over the byte reader, with
the leb128 crate's i64 discipline. The accumulator is the 64-bit two's
complement pattern (kept below 2^64): at shift 63 only the final bytes 0x00
and 0x7f are accepted, else Overflow; on the final byte, when fewer than 64
bits were filled and the byte's 0x40 bit is set, the high bits are filled
with ones; the pattern is then read back as a signed value. -/
def leb128SignedGo : List Nat → Nat → Nat → Except GhwErr (Int × List Nat)
  | [], _, _ => .error .io
  | b :: rest, shift, acc =>
    if shift == 63 && !(b == 0 || b == 127) then .error .leb128Overflow
    else
      let acc2 : Nat := (acc ||| ((b &&& 127) <<< shift)) % 2 ^ 64
      if b &&& 128 == 0 then
        let acc3 : Nat :=
          if shift + 7 < 64 && !(b &&& 64 == 0) then acc2 ||| (2 ^ 64 - 2 ^ (shift + 7))
          else acc2
        .ok (if acc3 < 2 ^ 63 then (acc3 : Int) else (acc3 : Int) - 2 ^ 64, rest)
      else leb128SignedGo rest (shift + 7) acc2

/-- Signed LEB128 entry point. -/
def leb128_read_signed (input : List Nat) : Except GhwErr (Int × List Nat) :=
  leb128SignedGo input 0 0

/-- Big-endian byte expansion of a 64-bit value (`u64::to_be_bytes`). -/
def u64BeBytes (n : Nat) : List Nat :=
  [(n >>> 56) &&& 255, (n >>> 48) &&& 255, (n >>> 40) &&& 255, (n >>> 32) &&& 255,
   (n >>> 24) &&& 255, (n >>> 16) &&& 255, (n >>> 8) &&& 255, n &&& 255]

/-- `read_signal_value` (ghw/signals.rs:141-233), parameterized by the
256-entry `STD_LOGIC_LUT` of ghw/common.rs (outside these sources). The
debug assertions of the source are liveness checks per the spec, not
errors, and are not modelled. Returns the updated buffer, the remaining
input, and the emissions. -/
def read_signal_value (lut : Nat → Nat) (signal : GhwSignal) (vecs : VecBuffer)
    (input : List Nat) : Except GhwErr (VecBuffer × List Nat × List GhwEmission) :=
  match signal.tpe with
  | .nineState =>
    match read_u8 input with
    | .error e => .error e
    | .ok (ghdl_value, rest) =>
      .ok (vecs, rest, [.raw signal.signal_ref [lut ghdl_value] .nine])
  | .twoState =>
    match read_u8 input with
    | .error e => .error e
    | .ok (value, rest) => .ok (vecs, rest, [.raw signal.signal_ref [value] .two])
  | .nineStateBit bit _ =>
    match read_u8 input with
    | .error e => .error e
    | .ok (ghdl_value, rest) =>
      let r := bitUpdateStep .nine vecs signal.signal_ref bit (lut ghdl_value)
      .ok (r.1, rest, r.2)
  | .twoStateBit bit _ =>
    match read_u8 input with
    | .error e => .error e
    | .ok (value, rest) =>
      let r := bitUpdateStep .two vecs signal.signal_ref bit value
      .ok (r.1, rest, r.2)
  | .u8 _ =>
    match read_u8 input with
    | .error e => .error e
    | .ok (value, rest) => .ok (vecs, rest, [.raw signal.signal_ref [value] .two])
  | .leb128Signed bits =>
    match leb128_read_signed input with
    | .error e => .error e
    | .ok (signed_value, rest) =>
      let value := (signed_value % (2 ^ 64 : Int)).toNat
      let num_bytes := (bits + 7) / 8
      .ok (vecs, rest, [.raw signal.signal_ref ((u64BeBytes value).drop (8 - num_bytes)) .two])
  | .f64 =>
    match input with
    | b0 :: b1 :: b2 :: b3 :: b4 :: b5 :: b6 :: b7 :: rest =>
      .ok (vecs, rest, [.realChange signal.signal_ref [b0, b1, b2, b3, b4, b5, b6, b7]])
    | _ => .error .io

/-- The loop of `read_cycle_signals` (ghw/signals.rs:109-132): read a delta,
stop on zero, advance the running 1-based index, fail if it is zero
(the "Expected a first delta > 0" branch), and decode the value of the
indexed signal. `pos_signal_index` is a `usize`, so the addition wraps
modulo 2^64 — release-build semantics; a debug build would panic on the
overflow instead — which makes the zero check reachable for deltas that
bring the index to a multiple of 2^64. `fuel` bounds the recursion;
`input.length + 1` always suffices. -/
def readCycleSignalsGo (lut : Nat → Nat) (signals : List GhwSignal) :
    Nat → Nat → VecBuffer → List Nat → Except GhwErr (VecBuffer × List Nat × List GhwEmission)
  | 0, _, _, _ => .error .outOfFuel
  | fuel + 1, pos_signal_index, vecs, input =>
    match leb128_read_unsigned input with
    | .error e => .error e
    | .ok (delta, rest) =>
      if delta == 0 then .ok (vecs, rest, [])
      else
        let pos2 := (pos_signal_index + delta) % 2 ^ 64
        if pos2 == 0 then .error .firstDeltaZero
        else
          match signals.get? (pos2 - 1) with
          | none => .error .indexPanic
          | some sig =>
            match read_signal_value lut sig vecs rest with
            | .error e => .error e
            | .ok (vecs2, rest2, ems) =>
              match readCycleSignalsGo lut signals fuel pos2 vecs2 rest2 with
              | .error e => .error e
              | .ok (vecs3, rest3, ems2) => .ok (vecs3, rest3, ems ++ ems2)

/-- `read_cycle_signals` (ghw/signals.rs:109-132), with the running index
starting at 0. -/
def read_cycle_signals (lut : Nat → Nat) (signals : List GhwSignal) (vecs : VecBuffer)
    (input : List Nat) : Except GhwErr (VecBuffer × List Nat × List GhwEmission) :=
  readCycleSignalsGo lut signals (input.length + 1) 0 vecs input

/-! ## Instances for the concrete claim scenarios -/

/-- The buffer for a single 2-bit nine-state vector (signal 0), as built by
`from_decode_info` from the two per-bit signal declarations. -/
def c1Buffer : VecBuffer :=
  VecBuffer.from_decode_info
    [⟨0, .nineStateBit 0 2⟩, ⟨0, .nineStateBit 1 2⟩] 1

/-- The C1 scenario: within one timestep, bit 0 receives `v1`, then bit 0
receives `v0`, then bit 1 receives `v1`; the timestep is then flushed. The
result is the concatenated emission trace. -/
def c1DeltaRun (v1 v0 : Nat) : List GhwEmission :=
  let s1 := bitUpdateStep .nine c1Buffer 0 0 v1
  let s2 := bitUpdateStep .nine s1.1 0 0 v0
  let s3 := bitUpdateStep .nine s2.1 0 1 v1
  let fin := finish_time_step s3.1
  s1.2 ++ s2.2 ++ s3.2 ++ fin.2

/-- The buffer for a single 10-bit nine-state vector (signal 0). -/
def c2Buffer : VecBuffer :=
  VecBuffer.from_decode_info [⟨0, .nineStateBit 0 10⟩] 1

/-- The 10-bit buffer after every bit 0..9 received the value 1 in the
current timestep. -/
def c2Marked : VecBuffer :=
  (List.range 10).foldl (fun b bit => b.update_value 0 bit 1) c2Buffer

/-- The buffer for a single 1-bit nine-state vector (signal 0). -/
def c3Buffer : VecBuffer :=
  VecBuffer.from_decode_info [⟨0, .nineStateBit 0 1⟩] 1

/-- All bit-change bytes belonging to a described signal are zero. -/
def cleanFor (b : VecBuffer) (info : VecBufferInfo) : Prop :=
  ∀ j < info.changeLen, listGet b.bit_change (info.bit_change_start + j) = 0

/-- The change-buffer invariant maintained across the decoding of one
timestep (spec section 3): a set signal-change bit implies membership in
the change list; nonzero bit-change bytes imply a set signal-change bit;
and a set signal-change bit implies the signal is described (so the
`.unwrap()` calls of the source cannot panic). Note that the converse of
the first clause is deliberately absent: an early-dispatched signal stays
on the list with its bit cleared. -/
def BufferInv (b : VecBuffer) : Prop :=
  (∀ s, b.has_signal_changed s = true → s ∈ b.change_list) ∧
  (∀ s info, b.infoOf s = some info → ¬ cleanFor b info → b.has_signal_changed s = true) ∧
  (∀ s, b.has_signal_changed s = true → (b.infoOf s).isSome = true)

/-! ## Theorems -/

theorem hornerRev_append (acc : Nat) (l : List Nat) (b : Nat) :
    hornerRev acc (l ++ [b]) = hornerRev acc l * NUM_ID_CHARS + (b - ID_CHAR_MIN + 1) := by
  induction l generalizing acc with
  | nil => rfl
  | cons x xs ih =>
    simp only [List.cons_append, hornerRev]
    exact ih _

theorem idValue_eq_hornerRev (l : List Nat) : idValue l = hornerRev 0 l.reverse := by
  induction l with
  | nil => rfl
  | cons b rest ih =>
    simp only [idValue, List.reverse_cons, hornerRev_append, ih]
    ring

theorem le_hornerRev (acc : Nat) (l : List Nat) : acc ≤ hornerRev acc l := by
  induction l generalizing acc with
  | nil => exact Nat.le_refl _
  | cons b rest ih =>
    refine Nat.le_trans ?_ (ih (acc * NUM_ID_CHARS + (b - ID_CHAR_MIN + 1)))
    have h94 : 1 ≤ NUM_ID_CHARS := by decide
    calc acc = acc * 1 := (Nat.mul_one acc).symm
    _ ≤ acc * NUM_ID_CHARS := Nat.mul_le_mul_left acc h94
    _ ≤ acc * NUM_ID_CHARS + (b - ID_CHAR_MIN + 1) := Nat.le_add_right _ _

theorem idToIntGo_eq (l : List Nat) (acc : Nat) (hacc : acc ≤ U64_MAX) :
    idToIntGo l acc =
      if (∀ b ∈ l, ID_CHAR_MIN ≤ b ∧ b ≤ ID_CHAR_MAX) ∧ hornerRev acc l ≤ U64_MAX
      then some (hornerRev acc l) else none := by
  induction l generalizing acc with
  | nil =>
    simp only [idToIntGo, hornerRev, List.not_mem_nil, false_implies, implies_true, true_and]
    rw [if_pos hacc]
  | cons i rest ih =>
    by_cases hrange : i < ID_CHAR_MIN ∨ ID_CHAR_MAX < i
    · rw [idToIntGo, if_pos hrange, if_neg]
      rintro ⟨hall, -⟩
      rcases hall i (List.mem_cons_self i rest) with ⟨h1, h2⟩
      rcases hrange with h | h
      · exact absurd h1 (Nat.not_le_of_lt h)
      · exact absurd h2 (Nat.not_le_of_lt h)
    · push_neg at hrange
      rcases hrange with ⟨h1, h2⟩
      by_cases hover : U64_MAX < acc * NUM_ID_CHARS + (i - ID_CHAR_MIN + 1)
      · rw [idToIntGo, if_neg, if_pos hover, if_neg]
        · rintro ⟨-, hle⟩
          have hmono := le_hornerRev (acc * NUM_ID_CHARS + (i - ID_CHAR_MIN + 1)) rest
          simp only [hornerRev] at hle
          exact absurd (Nat.le_trans hmono hle) (Nat.not_le_of_lt hover)
        · rintro (h | h)
          · exact absurd h1 (Nat.not_le_of_lt h)
          · exact absurd h2 (Nat.not_le_of_lt h)
      · push_neg at hover
        rw [idToIntGo, if_neg, if_neg (by omega : ¬ U64_MAX < acc * NUM_ID_CHARS + (i - ID_CHAR_MIN + 1))]
        · rw [ih _ hover]
          simp only [hornerRev]
          congr 1
          apply propext
          constructor
          · rintro ⟨hall, hle⟩
            refine ⟨fun b hb => ?_, hle⟩
            rcases List.mem_cons.mp hb with hbi | hbr
            · exact hbi ▸ ⟨by omega, by omega⟩
            · exact hall b hbr
          · rintro ⟨hall, hle⟩
            exact ⟨fun b hb => hall b (List.mem_cons.mpr (Or.inr hb)), hle⟩
        · rintro (h | h)
          · exact absurd h1 (Nat.not_le_of_lt h)
          · exact absurd h2 (Nat.not_le_of_lt h)

/-- C6: `id_to_int` maps the concrete identifiers of the specification to
0, 2, 66 and 472 respectively, and in general returns `some (N - 1)` where
`N` is the 1-based base-94 value of the bytes taken least-significant first,
exactly when the input is nonempty, every byte lies in the printable range
33..=126, and the value fits in a `u64` accumulator; in every other case
(empty input, out-of-range byte, overflow) it returns `none`. -/
theorem c6_id_to_int_spec :
    id_to_int [33] = some 0 ∧ id_to_int [35] = some 2 ∧
    id_to_int [99] = some 66 ∧ id_to_int [35, 37] = some 472 ∧
    ∀ id : List Nat, id_to_int id =
      if id ≠ [] ∧ (∀ b ∈ id, ID_CHAR_MIN ≤ b ∧ b ≤ ID_CHAR_MAX) ∧ idValue id ≤ U64_MAX
      then some (idValue id - 1) else none := by
  refine ⟨by decide, by decide, by decide, by decide, fun id => ?_⟩
  rw [id_to_int]
  by_cases hemp : id.isEmpty
  · rw [if_pos hemp, if_neg]
    rintro ⟨hne, -⟩
    exact hne (List.isEmpty_iff.mp hemp)
  · rw [if_neg hemp, idToIntGo_eq _ 0 (by decide)]
    have hrev : ∀ P : Nat → Prop, (∀ b ∈ id.reverse, P b) ↔ (∀ b ∈ id, P b) := by
      intro P
      constructor
      · intro h b hb
        exact h b (List.mem_reverse.mpr hb)
      · intro h b hb
        exact h b (List.mem_reverse.mp hb)
    by_cases hcond : (∀ b ∈ id, ID_CHAR_MIN ≤ b ∧ b ≤ ID_CHAR_MAX) ∧ idValue id ≤ U64_MAX
    · rw [if_pos, if_pos]
      · rw [idValue_eq_hornerRev]
      · exact ⟨fun h => hemp (by simp [h]), hcond⟩
      · exact ⟨(hrev _).mpr hcond.1, by rw [← idValue_eq_hornerRev]; exact hcond.2⟩
    · rw [if_neg, if_neg]
      · rintro ⟨-, h2, h3⟩
        exact hcond ⟨h2, h3⟩
      · rintro ⟨h1, h2⟩
        exact hcond ⟨(hrev _).mp h1, by rw [idValue_eq_hornerRev]; exact h2⟩

theorem take_length_append (l₁ l₂ : List Nat) : (l₁ ++ l₂).take l₁.length = l₁ := by
  induction l₁ with
  | nil => rfl
  | cons a l ih => simp only [List.cons_append, List.length_cons, List.take_succ_cons, ih]

theorem go_end_token (post buf : List Nat) :
    read_until_end_token_go (101 :: 110 :: 100 :: post) 1 false (buf ++ [36]) =
      some (rightStrip buf, post) := by
  simp [read_until_end_token_go, take_length_append]

theorem go_no_dollar (post : List Nat) :
    ∀ pre buf : List Nat, (∀ b ∈ pre, b ≠ 36) →
    read_until_end_token_go (pre ++ 36 :: 101 :: 110 :: 100 :: post) 0 false buf =
      some (rightStrip (buf ++ pre), post) := by
  intro pre
  induction pre with
  | nil =>
    intro buf _
    simp only [List.nil_append, List.append_nil]
    rw [read_until_end_token_go]
    simp only [show (false && isWs 36) = false by simp, Bool.false_eq_true, if_false]
    simp only [show ((0 : Nat) == 0 && (36 : Nat) == 36) = true by simp, if_true]
    exact go_end_token post buf
  | cons b pre ih =>
    intro buf h
    have hb : b ≠ 36 := h b (List.mem_cons_self b pre)
    rw [List.cons_append, read_until_end_token_go]
    simp only [show (false && isWs b) = false by simp, Bool.false_eq_true, if_false]
    rw [if_neg (by simp [hb]), if_neg (by simp), if_neg (by simp), if_neg (by simp)]
    rw [ih (buf ++ [b]) (fun x hx => h x (List.mem_cons_of_mem b hx))]
    simp [List.append_assoc]

theorem go_skipping (post : List Nat) :
    ∀ pre : List Nat, (∀ b ∈ pre, b ≠ 36) →
    read_until_end_token_go (pre ++ 36 :: 101 :: 110 :: 100 :: post) 0 true [] =
      some (rightStrip (pre.dropWhile isWs), post) := by
  intro pre
  induction pre with
  | nil =>
    intro _
    rw [List.nil_append, read_until_end_token_go]
    simp only [show (true && isWs 36) = false by decide, Bool.false_eq_true, if_false]
    simp only [show ((0 : Nat) == 0 && (36 : Nat) == 36) = true by simp, if_true]
    have := go_end_token post []
    simp only [List.nil_append] at this
    simpa [List.dropWhile] using this
  | cons b pre ih =>
    intro h
    have hb : b ≠ 36 := h b (List.mem_cons_self b pre)
    by_cases hws : isWs b = true
    · rw [List.cons_append, read_until_end_token_go]
      simp only [hws, Bool.and_true, if_true]
      rw [ih (fun x hx => h x (List.mem_cons_of_mem b hx))]
      simp [List.dropWhile, hws]
    · rw [List.cons_append, read_until_end_token_go]
      rw [if_neg (by simp [hws]), if_neg (by simp [hb]), if_neg (by simp), if_neg (by simp),
        if_neg (by simp)]
      have := go_no_dollar post pre [b] (fun x hx => h x (List.mem_cons_of_mem b hx))
      simp only [List.singleton_append] at this
      rw [List.nil_append, this]
      simp [List.dropWhile, hws]

/-- C7 counterexample: on the input "a $endx" the source function terminates
at a `$end` that is followed by the letter x (neither whitespace nor the end
of the body) and returns the stripped buffer "a", while the claim's reading
(termination only at a `$end` followed by whitespace or end-of-body) finds
no such occurrence and must run into the end of the input. -/
theorem c7_read_until_end_token_cex :
    read_until_end_token [97, 32, 36, 101, 110, 100, 120] = some ([97], [120]) ∧
    readUntilEndTokenSpec [97, 32, 36, 101, 110, 100, 120] = none := by
  constructor <;> rfl

/-- C7 amended: `read_until_end_token` appends input bytes to the buffer and
terminates at the first recognized occurrence of the four-byte end token
regardless of what follows it (no whitespace or end-of-body lookahead); on
return the end token and trailing whitespace are removed and leading
whitespace is stripped, and the rest of the input is left unread. Stated for
any prefix free of the dollar byte, so the recognized occurrence is the
explicit one. -/
theorem c7_read_until_end_token_amended (pre post : List Nat) (h : ∀ b ∈ pre, b ≠ 36) :
    read_until_end_token (pre ++ 36 :: 101 :: 110 :: 100 :: post) =
      some (rightStrip (pre.dropWhile isWs), post) :=
  go_skipping post pre h

/-- C7 witness: the amended theorem applied to the concrete prefix " a " and
suffix "x". -/
theorem c7_read_until_end_token_witness :
    read_until_end_token [32, 97, 32, 36, 101, 110, 100, 120] =
      some (rightStrip (([32, 97, 32] : List Nat).dropWhile isWs), [120]) :=
  c7_read_until_end_token_amended [32, 97, 32] [120] (by decide)

/-- C10: on the header input "$attrbegin misc 04 1 5 $end" with no preceding
opcode-03 path-name registration, header parsing reaches the unchecked map
index in the opcode-04 branch of `parse_attribute` and panics rather than
returning a `VcdParseError`; with path id 1 registered (mapped to string
ref 7) the same input succeeds with a source-location attribute, isolating
the missing registration as the cause. Quantified over the external
`fst_native` enum-membership predicates, which the opcode-04 branch never
consults. -/
theorem c10_attrbegin_unregistered_path_panics :
    ∀ isVarType isDataType : Nat → Bool,
      attrbegin_step isVarType isDataType (strBytes "$attrbegin misc 04 1 5 $end ") [] 0 =
        .panic ∧
      attrbegin_step isVarType isDataType (strBytes "$attrbegin misc 04 1 5 $end ") [(1, 7)] 0 =
        .ok (some (.sourceLoc 7 5 false), [(1, 7)], 0) := by
  intro isVarType isDataType
  constructor <;> rfl

theorem tokenizeGo_accum :
    ∀ (t : List Nat) (pos s : Nat) (acc : List Nat) (fs : Nat) (prev : Option (List Nat))
      (sfe : Bool), (∀ b ∈ t, isWs b = false) →
    tokenizeGo t pos (some (s, acc)) fs prev sfe =
      (match try_finish_token (acc ++ t) prev sfe with
       | (.emit cmd, _, _, _) => ([(fs, cmd)], false)
       | (.panicOut, _, _, _) => ([], true)
       | (.noCmd, _, _, _) => ([], false)) := by
  intro t
  induction t with
  | nil =>
    intro pos s acc fs prev sfe _
    rw [List.append_nil]
    rfl
  | cons b rest ih =>
    intro pos s acc fs prev sfe h
    have hb : isWs b = false := h b (List.mem_cons_self b rest)
    rw [tokenizeGo, hb]
    simp only [Bool.false_eq_true, if_false]
    rw [ih (pos + 1) s (acc ++ [b]) fs prev sfe (fun x hx => h x (List.mem_cons_of_mem b hx))]
    rw [List.append_assoc, List.singleton_append]

/-- C9 counterexample: the unrecognized token "qq" as the last token of the
input, and the unrecognized 1-byte token "q", both produce no event and no
panic — the reader just stops — although the claim requires a fatal error
for every unclassified token, including these two shapes. -/
theorem c9_unknown_token_cex :
    tokenizeBody (strBytes "qq") = ([], false) ∧
    tokenizeBody (strBytes "q ") = ([], false) := by
  constructor <;> rfl

/-- C9 amended: an unclassified token is fatal only in a deferred way, and
a 1-byte token is not classified at all —
(i) for any 1-byte token the reader returns no command and leaves the token
in progress (the source's early return skips clearing token_start), so the
byte merges with the following whitespace and bytes into one longer token;
(ii) concretely, "q 0a" therefore tokenizes as the single unclassified
token "q 0a" (pending, dropped at end of input, no event and no panic),
and "q x y" panics when the token after the merged "q x" completes;
(iii) an unclassified token of length at least 2 becomes the pending first
token, and when the following token completes the reader panics unless the
pending token starts a vector/real/string change;
(iv) an unclassified token that is the last token of the input is silently
discarded at end of input (no event, no panic);
(v) concretely, "qq 0a " does panic when the token after "qq" completes. -/
theorem c9_unknown_token_amended :
    (∀ c : Nat, try_finish_token [c] none false = (.noCmd, none, false, true)) ∧
    (tokenizeBody (strBytes "q 0a") = ([], false) ∧
      tokenizeBody (strBytes "q x y") = ([], true)) ∧
    (∀ token first : List Nat, token ≠ [] →
      isVectorStart (first.headD 0) = false →
      try_finish_token token (some first) false = (.panicOut, none, false, false)) ∧
    (∀ t : List Nat, 2 ≤ t.length → (∀ b ∈ t, isWs b = false) →
      t.headD 0 ≠ 35 → isScalarStart (t.headD 0) = false →
      t ≠ strBytes "$dumpall" → t ≠ strBytes "$comment" → t ≠ strBytes "$dumpvars" →
      t ≠ strBytes "$end" → t ≠ strBytes "$dumpoff" →
      tokenizeBody t = ([], false)) ∧
    tokenizeBody (strBytes "qq 0a ") = ([], true) := by
  refine ⟨fun c => rfl, ⟨rfl, rfl⟩,
    fun token first hne hfv => ?_, fun t hlen hws h35 hsc hda hcm hdv hed hdo => ?_, rfl⟩
  · cases token with
    | nil => exact absurd rfl hne
    | cons b rest =>
      cases first with
      | nil => simp [try_finish_token, isVectorStart]
      | cons f fs =>
        simp only [List.headD_cons] at hfv
        simp [try_finish_token, hfv]
  · cases t with
    | nil => simp at hlen
    | cons b rest =>
      simp only [List.headD_cons] at h35 hsc
      simp only [List.length_cons] at hlen
      have hb : isWs b = false := hws b (List.mem_cons_self b rest)
      have hrest : rest ≠ [] := by
        intro hr
        rw [hr] at hlen
        simp only [List.length_nil] at hlen
        omega
      have htft : try_finish_token (b :: rest) none false =
          (.noCmd, some (b :: rest), false, false) := by
        simp [try_finish_token, hrest, h35, hsc, hda, hcm, hdv, hed, hdo]
      rw [tokenizeBody, tokenizeGo, hb]
      simp only [Bool.false_eq_true, if_false, Option.isNone_none, if_true]
      rw [tokenizeGo_accum rest 1 0 [b] 0 none false
        (fun x hx => hws x (List.mem_cons_of_mem b hx))]
      rw [List.singleton_append, htft]

/-- C9 witness: the trailing-token clause of the amended theorem applied to
the concrete unclassified token "qx". -/
theorem c9_unknown_token_witness :
    tokenizeBody (strBytes "qx") = ([], false) :=
  c9_unknown_token_amended.2.2.2.1 (strBytes "qx") (by decide) (by decide) (by decide)
    (by decide) (by decide) (by decide) (by decide) (by decide) (by decide)

/-- Skipping a run of space bytes with no token in progress just advances
the position. -/
theorem tokenizeGo_skip_ws (rest : List Nat) :
    ∀ (n pos fs : Nat) (prev : Option (List Nat)) (sfe : Bool),
      tokenizeGo (List.replicate n 32 ++ rest) pos none fs prev sfe =
        tokenizeGo rest (pos + n) none fs prev sfe := by
  intro n
  induction n with
  | zero => intro pos fs prev sfe; rfl
  | succ n ih =>
    intro pos fs prev sfe
    rw [List.replicate_succ, List.cons_append, tokenizeGo]
    simp only [show isWs 32 = true by rfl, if_true]
    rw [ih (pos + 1) fs prev sfe]
    congr 1
    omega

theorem c5_cex_tokenization :
    tokenizeBody (List.replicate 4096 32 ++ 35 :: 55 :: 10 :: List.replicate 4094 32) =
      ([(4096, .time [55])], false) := by
  rw [tokenizeBody, tokenizeGo_skip_ws]
  rw [tokenizeGo]
  simp only [show isWs 35 = false by rfl, Bool.false_eq_true, if_false]
  rw [tokenizeGo]
  simp only [show isWs 55 = false by rfl, Bool.false_eq_true, if_false]
  rw [tokenizeGo]
  simp only [show isWs 10 = true by rfl, if_true]
  simp only [List.singleton_append,
    show try_finish_token [35, 55] none false = (.emit (.time [55]), none, false, false)
      from rfl]
  rw [show List.replicate 4094 (32 : Nat) = List.replicate 4094 32 ++ ([] : List Nat) from
    (List.append_nil _).symm]
  rw [tokenizeGo_skip_ws]
  norm_num
  exact ⟨rfl, rfl⟩

/-- C5 counterexample: an 8193-byte body splits into two chunks of nominal
size 4097 (two workers available), so the claim demands that chunk 0 stop
before any timestamp whose start-offset is at least chunk_size - 1 = 4096;
but the body below has a time command starting exactly at byte 4096 and
chunk 0 (stop_pos = chunk_size - 1) does emit it, because the source breaks
only when the offset strictly exceeds stop_pos. -/
theorem c5_chunk_boundary_cex :
    (List.replicate 4096 32 ++ 35 :: 55 :: 10 :: List.replicate 4094 32).length = 8193 ∧
    determine_thread_chunks 2 8193 = [(0, 4097), (4097, 4097)] ∧
    read_single_stream_of_values
      (List.replicate 4096 32 ++ 35 :: 55 :: 10 :: List.replicate 4094 32)
      (4097 - 1) true true = ([.timeChange [55]], false) := by
  refine ⟨by rw [List.length_append, List.length_replicate]; norm_num, by rfl, ?_⟩
  rw [read_single_stream_of_values]
  simp only [if_true]
  rw [c5_cex_tokenization]
  rfl

/-- C5 amended: within one chunk the consumption loop stops exactly at the
first time command whose start-offset plus the resynchronization offset
strictly exceeds stop_pos = chunk_size - 1 (equivalently, is at least
chunk_size): that time command and everything after it are not emitted,
while all events before it are processed unchanged. A timestamp starting
exactly at offset chunk_size - 1 is still emitted by this chunk. -/
theorem c5_stop_rule_amended (s₁ s₂ : List (Nat × BodyCmd)) (p : Nat) (v : List Nat)
    (stop_pos offset : Nat) (is_first found_first : Bool)
    (h₁ : ∀ e ∈ s₁, ∀ t, e.2 = BodyCmd.time t → e.1 + offset ≤ stop_pos)
    (h₂ : stop_pos < p + offset) :
    runStream (s₁ ++ (p, .time v) :: s₂) stop_pos offset is_first found_first =
      runStream s₁ stop_pos offset is_first found_first := by
  induction s₁ generalizing found_first with
  | nil =>
    rw [List.nil_append]
    simp only [runStream, if_pos h₂]
  | cons e rest ih =>
    have h₁r : ∀ x ∈ rest, ∀ s, x.2 = BodyCmd.time s → x.1 + offset ≤ stop_pos :=
      fun x hx s hs => h₁ x (List.mem_cons_of_mem _ hx) s hs
    match e with
    | (q, .time t) =>
      have hq : q + offset ≤ stop_pos :=
        h₁ (q, .time t) (List.mem_cons_self _ _) t rfl
      rw [List.cons_append, runStream, runStream,
        if_neg (Nat.not_lt_of_le hq), if_neg (Nat.not_lt_of_le hq), ih true h₁r]
    | (q, .value w id) =>
      rw [List.cons_append, runStream, runStream]
      by_cases hf : (is_first && !found_first) = true
      · rw [if_pos hf, if_pos hf, ih true h₁r]
      · rw [if_neg hf, if_neg hf]
        by_cases hf2 : found_first = true
        · rw [if_pos hf2, if_pos hf2, ih found_first h₁r]
        · rw [if_neg hf2, if_neg hf2, ih found_first h₁r]

/-- C5 witness for the amended stop rule: a stream with one in-range time
command followed by an out-of-range one is truncated exactly before the
latter. -/
theorem c5_stop_rule_witness :
    runStream [(0, .time [49]), (10, .time [50])] 5 0 true false =
      runStream [(0, .time [49])] 5 0 true false :=
  c5_stop_rule_amended [(0, .time [49])] [] 10 [50] 5 0 true false
    (by
      rintro e he t ht
      simp only [List.mem_singleton] at he
      subst he
      simp) (by omega)

theorem shiftRight_and_one_eq_testBit (x j : Nat) :
    (((x >>> j) &&& 1) == 1) = x.testBit j := by
  unfold Nat.testBit
  rw [Nat.and_one_is_mod, Nat.one_and_eq_mod_two]
  rcases Nat.mod_two_eq_zero_or_one (x >>> j) with h | h <;> simp [h]

theorem hasSig_eq_testBit (b : VecBuffer) (s : Nat) :
    b.has_signal_changed s = (listGet b.signal_change (s / 8)).testBit (s % 8) :=
  shiftRight_and_one_eq_testBit _ _

theorem hasBit_eq_testBit (b : VecBuffer) (info : VecBufferInfo) (bit : Nat) :
    b.has_bit_changed info bit =
      (listGet b.bit_change (info.bit_change_start + bit / 8)).testBit (bit % 8) :=
  shiftRight_and_one_eq_testBit _ _

theorem clear_mask_testBit (x k j : Nat) (hk : k < 8) (hj : j < 8) :
    (x &&& (255 ^^^ (1 <<< k))).testBit j = if j = k then false else x.testBit j := by
  rw [Nat.testBit_and, Nat.testBit_xor]
  rw [show (255 : Nat) = 2 ^ 8 - 1 from rfl, Nat.testBit_two_pow_sub_one]
  rw [Nat.one_shiftLeft, Nat.testBit_two_pow]
  by_cases hjk : j = k
  · subst hjk
    simp [hj]
  · have h1 : decide (j < 8) = true := decide_eq_true hj
    have h2 : decide (k = j) = false := decide_eq_false (fun hx => hjk hx.symm)
    rw [if_neg hjk]
    simp [h1, h2]

theorem listGet_oob (l : List Nat) (i : Nat) (h : l.length ≤ i) : listGet l i = 0 := by
  rw [listGet, List.getD_eq_getElem?_getD, List.getElem?_eq_none h]
  rfl

theorem listGet_listSet (l : List Nat) (i v j : Nat) :
    listGet (listSet l i v) j = if j = i ∧ i < l.length then v else listGet l j := by
  by_cases hij : j = i
  · subst hij
    by_cases hi : j < l.length
    · rw [if_pos ⟨rfl, hi⟩, listGet, listSet, List.getD_eq_getElem?_getD,
        List.getElem?_set_self hi]
      rfl
    · rw [if_neg (fun h => hi h.2), listGet, listSet,
        List.set_eq_of_length_le (Nat.le_of_not_lt hi)]
      rfl
  · rw [if_neg (fun h => hij h.1), listGet, listSet, List.getD_eq_getElem?_getD,
      List.getElem?_set_ne (fun h => hij h.symm), ← List.getD_eq_getElem?_getD]
    rfl

theorem listGet_set_zero (l : List Nat) (i j : Nat) :
    listGet (listSet l i 0) j = if j = i then 0 else listGet l j := by
  rw [listGet_listSet]
  by_cases hij : j = i
  · subst hij
    by_cases hi : j < l.length
    · rw [if_pos ⟨rfl, hi⟩, if_pos rfl]
    · rw [if_neg (fun h => hi h.2), if_pos rfl, listGet_oob _ _ (Nat.le_of_not_lt hi)]
  · rw [if_neg (fun h => hij h.1), if_neg hij]

theorem listGet_set_land (l : List Nat) (i m j : Nat) :
    listGet (listSet l i (listGet l i &&& m)) j =
      if j = i then listGet l i &&& m else listGet l j := by
  rw [listGet_listSet]
  by_cases hij : j = i
  · subst hij
    by_cases hi : j < l.length
    · rw [if_pos ⟨rfl, hi⟩, if_pos rfl]
    · rw [if_neg (fun h => hi h.2), if_pos rfl, listGet_oob _ _ (Nat.le_of_not_lt hi)]
      simp
  · rw [if_neg (fun h => hij h.1), if_neg hij]

theorem zeroRange_getD (n : Nat) : ∀ (l : List Nat) (s i : Nat),
    listGet (zeroRange l s n) i = if s ≤ i ∧ i < s + n then 0 else listGet l i := by
  induction n with
  | zero =>
    intro l s i
    simp only [zeroRange]
    rw [if_neg]
    rintro ⟨h1, h2⟩
    omega
  | succ n ih =>
    intro l s i
    simp only [zeroRange]
    rw [ih]
    by_cases h : s + 1 ≤ i ∧ i < s + 1 + n
    · rw [if_pos h, if_pos (by omega)]
    · rw [if_neg h, listGet_set_zero]
      by_cases his : i = s
      · rw [if_pos his, if_pos (by omega)]
      · rw [if_neg his, if_neg (by omega)]

theorem gf_snd (b : VecBuffer) (s : Nat) (info : VecBufferInfo)
    (h : b.infoOf s = some info) :
    (b.get_full_value_and_clear_changes s).2 =
      { b with
        bit_change := zeroRange b.bit_change info.bit_change_start info.changeLen,
        signal_change := listSet b.signal_change (s / 8)
          (listGet b.signal_change (s / 8) &&& (255 ^^^ (1 <<< (s % 8)))) } := by
  simp only [VecBuffer.get_full_value_and_clear_changes, h]

theorem gf_fields (b : VecBuffer) (s : Nat) :
    (b.get_full_value_and_clear_changes s).2.info = b.info ∧
    (b.get_full_value_and_clear_changes s).2.data = b.data ∧
    (b.get_full_value_and_clear_changes s).2.change_list = b.change_list := by
  cases hinfo : b.infoOf s with
  | none =>
    simp only [VecBuffer.get_full_value_and_clear_changes, hinfo]
    exact ⟨trivial, trivial, trivial⟩
  | some info =>
    simp only [VecBuffer.get_full_value_and_clear_changes, hinfo]
    exact ⟨trivial, trivial, trivial⟩

theorem gf_hasSig_self (b : VecBuffer) (s : Nat) (info : VecBufferInfo)
    (h : b.infoOf s = some info) :
    (b.get_full_value_and_clear_changes s).2.has_signal_changed s = false := by
  rw [gf_snd b s info h, hasSig_eq_testBit]
  simp only [listGet_set_land, eq_self_iff_true, if_true]
  rw [clear_mask_testBit _ _ _ (Nat.mod_lt _ (by norm_num)) (Nat.mod_lt _ (by norm_num)),
    if_pos rfl]

theorem gf_hasSig_other (b : VecBuffer) (s : Nat) (info : VecBufferInfo) (x : Nat)
    (h : b.infoOf s = some info) (hx : x ≠ s) :
    (b.get_full_value_and_clear_changes s).2.has_signal_changed x =
      b.has_signal_changed x := by
  rw [gf_snd b s info h, hasSig_eq_testBit, hasSig_eq_testBit]
  simp only [listGet_set_land]
  by_cases hbyte : x / 8 = s / 8
  · rw [if_pos hbyte]
    have hne : x % 8 ≠ s % 8 := fun hmod => hx (by omega)
    rw [clear_mask_testBit _ _ _ (Nat.mod_lt _ (by norm_num)) (Nat.mod_lt _ (by norm_num)),
      if_neg hne, hbyte]
  · rw [if_neg hbyte]

theorem gf_bit_change (b : VecBuffer) (s : Nat) (info : VecBufferInfo)
    (h : b.infoOf s = some info) (i : Nat) :
    listGet (b.get_full_value_and_clear_changes s).2.bit_change i =
      if info.bit_change_start ≤ i ∧ i < info.bit_change_start + info.changeLen then 0
      else listGet b.bit_change i := by
  rw [gf_snd b s info h]
  exact zeroRange_getD _ _ _ _

theorem processGo_not_mem : ∀ (l : List Nat) (b : VecBuffer) (s : Nat),
    b.has_signal_changed s = false →
    s ∉ ((processGo b l).2.map GhwEmission.sigOf) := by
  intro l
  induction l with
  | nil =>
    intro b s _
    simp [processGo]
  | cons x rest ih =>
    intro b s hs
    by_cases hx : b.has_signal_changed x = true
    · cases hinfo : b.infoOf x with
      | none =>
        simp only [processGo, hx, if_true, hinfo]
        exact ih b s hs
      | some info =>
        simp only [processGo, hx, if_true, hinfo, List.map_cons, GhwEmission.sigOf,
          List.mem_cons]
        rintro (heq | hmem)
        · rw [heq] at hs
          rw [hs] at hx
          cases hx
        · have hs2 : (b.get_full_value_and_clear_changes x).2.has_signal_changed s = false := by
            by_cases hsx : s = x
            · rw [hsx]
              exact gf_hasSig_self b x info hinfo
            · rw [gf_hasSig_other b x info s hinfo hsx]
              exact hs
          exact ih _ s hs2 hmem
    · simp only [processGo]
      rw [if_neg hx]
      exact ih b s hs

theorem processGo_nodup : ∀ (l : List Nat) (b : VecBuffer),
    ((processGo b l).2.map GhwEmission.sigOf).Nodup := by
  intro l
  induction l with
  | nil =>
    intro b
    simp [processGo]
  | cons x rest ih =>
    intro b
    by_cases hx : b.has_signal_changed x = true
    · cases hinfo : b.infoOf x with
      | none =>
        simp only [processGo, hx, if_true, hinfo]
        exact ih _
      | some info =>
        simp only [processGo, hx, if_true, hinfo, List.map_cons, GhwEmission.sigOf]
        rw [List.nodup_cons]
        exact ⟨processGo_not_mem rest _ x (gf_hasSig_self b x info hinfo), ih _⟩
    · simp only [processGo]
      rw [if_neg hx]
      exact ih b

/-- C3 counterexample: for a 1-bit nine-state vector, a first update (value
1, triggering full-vector early dispatch, which clears the signal-change
bit but keeps the entry on the list) followed by a second update (value 2)
re-adds the signal: the change list then holds SignalRef 0 twice within one
timestep, at a public method boundary. -/
theorem c3_change_list_cex :
    (bitUpdateStep .nine ((bitUpdateStep .nine c3Buffer 0 0 1).1) 0 0 2).1.change_list =
      [0, 0] ∧
    ¬ ((bitUpdateStep .nine ((bitUpdateStep .nine c3Buffer 0 0 1).1) 0 0 2).1.change_list).Nodup := by
  constructor
  · rfl
  · decide

/-- C3 amended: a SignalRef can appear more than once in the change list
within a timestep (it is re-pushed when an early-dispatched signal is
re-dirtied); what does hold at every flush is that the signal-change bit
guards processing, so `process_changed_signals` emits pairwise-distinct
SignalRefs — each listed signal is dispatched at most once. -/
theorem c3_change_list_amended (b : VecBuffer) :
    (((b.process_changed_signals).2).map GhwEmission.sigOf).Nodup :=
  processGo_nodup b.change_list { b with change_list := [] }

/-- C1: for the 2-bit nine-state vector buffer (fresh at the start of the
timestep, so both stored slots hold 0 and no changes are pending), the
update sequence bit 0 := v1, bit 0 := v0, bit 1 := v1 — with v1 and v0 the
nine-state encodings of the characters written, both nibbles, v1 nonzero
and distinct from v0, so that every write differs from the stored bit —
produces exactly two raw value changes including the end-of-step flush
(which here emits nothing), and the second carries the composite byte with
bit 1 = v1 in the high nibble and bit 0 = v0 in the low nibble. -/
theorem c1_delta_cycle (v1 v0 : Nat) (h1 : v1 < 16) (h0 : v0 < 16)
    (hne1 : v1 ≠ 0) (hne : v0 ≠ v1) :
    c1DeltaRun v1 v0 = [.raw 0 [v1] .nine, .raw 0 [v1 * 16 + v0] .nine] := by
  have H : ∀ a, a < 16 → ∀ c, c < 16 → a ≠ 0 → c ≠ a →
      c1DeltaRun a c = [.raw 0 [a] .nine, .raw 0 [a * 16 + c] .nine] := by decide
  exact H v1 h1 v0 h0 hne1 hne

/-- C1 witness: the theorem at the concrete encodings v1 = 3, v0 = 2. -/
theorem c1_delta_cycle_witness :
    c1DeltaRun 3 2 = [.raw 0 [3] .nine, .raw 0 [3 * 16 + 2] .nine] :=
  c1_delta_cycle 3 2 (by decide) (by decide) (by decide) (by decide)

/-- C2 counterexample: for the 10-bit nine-state vector, after all ten bits
were marked in the current timestep, `full_signal_has_changed` still
returns false (so no early flush happens): the scan demands 0xff of the
last change byte, which only ever holds the two valid low bits, and
compares the partial mask against the first byte instead. -/
theorem c2_full_signal_cex :
    c2Marked.infoOf 0 = some ⟨0, 0, 10, .nine⟩ ∧
    (∀ bit < 10, c2Marked.has_bit_changed ⟨0, 0, 10, .nine⟩ bit = true) ∧
    c2Marked.full_signal_has_changed 0 = false := by
  refine ⟨by rfl, by decide, by rfl⟩

/-- C8 counterexample: a cycle whose very first update delta is 0 does not
fail; the update list just ends and reading succeeds with no signal read,
no buffer change, and the remaining input untouched. -/
theorem c8_first_delta_cex :
    read_cycle_signals (fun v => v) [] (VecBuffer.from_decode_info [] 0) [0] =
      .ok (VecBuffer.from_decode_info [] 0, [], []) := by rfl

/-- C8 amended: a first delta of 0 terminates the cycle's update list
immediately and successfully, for every signal table, buffer and trailing
input. The "Expected a first delta > 0" error branch does remain reachable,
but only through 64-bit wrap-around of the usize running index
(release-build semantics; a debug build panics on the overflow first): a
first delta of 1 followed by a delta of 2^64 - 1 — a valid ten-byte LEB128
encoding the leb128 crate accepts — wraps the index back to zero and
produces exactly that error. -/
theorem c8_first_delta_amended :
    (∀ (lut : Nat → Nat) (signals : List GhwSignal) (vecs : VecBuffer) (rest : List Nat),
      read_cycle_signals lut signals vecs (0 :: rest) = .ok (vecs, rest, [])) ∧
    read_cycle_signals (fun v => v) [⟨0, .nineState⟩] (VecBuffer.from_decode_info [] 0)
      [1, 5, 255, 255, 255, 255, 255, 255, 255, 255, 255, 1] =
      .error .firstDeltaZero := by
  constructor
  · intro lut signals vecs rest
    rw [read_cycle_signals]
    simp only [List.length_cons, readCycleSignalsGo]
    rw [show leb128_read_unsigned (0 :: rest) = Except.ok (0, rest) from rfl]
    simp
  · rfl

theorem all_iff_index (l : List Nat) (p : Nat → Bool) :
    l.all p = true ↔ ∀ j < l.length, p (l.getD j 0) = true := by
  induction l with
  | nil => simp
  | cons a t ih =>
    simp only [List.all_cons, Bool.and_eq_true, ih, List.length_cons]
    constructor
    · rintro ⟨hpa, hall⟩ j hj
      cases j with
      | zero => rw [List.getD_cons_zero]; exact hpa
      | succ j => rw [List.getD_cons_succ]; exact hall j (by omega)
    · intro hAll
      refine ⟨?_, fun j hj => ?_⟩
      · have := hAll 0 (by omega)
        rwa [List.getD_cons_zero] at this
      · have := hAll (j + 1) (by omega)
        rwa [List.getD_cons_succ] at this

theorem slice_length (l : List Nat) (s n : Nat) (hsn : s + n ≤ l.length) :
    ((l.drop s).take n).length = n := by
  rw [List.length_take, List.length_drop]
  omega

theorem slice_getD (l : List Nat) (s n j : Nat) (hj : j < n) :
    ((l.drop s).take n).getD j 0 = listGet l (s + j) := by
  rw [List.getD_eq_getElem?_getD, List.getElem?_take_of_lt hj, List.getElem?_drop,
    listGet, List.getD_eq_getElem?_getD]

theorem getD_drop (l : List Nat) (k j : Nat) :
    (l.drop k).getD j 0 = l.getD (k + j) 0 := by
  rw [List.getD_eq_getElem?_getD, List.getElem?_drop, List.getD_eq_getElem?_getD]

theorem headD_eq_getD (l : List Nat) (d : Nat) : l.headD d = l.getD 0 d := by
  cases l <;> rfl

set_option maxRecDepth 40000 in
theorem byte255_iff : ∀ x < 256, ((x == 255) = true ↔ ∀ i < 8, x.testBit i = true) := by
  decide

set_option maxRecDepth 40000 in
theorem partial_mask_iff :
    ∀ w < 8, ∀ x < 2 ^ w, ((x == 2 ^ w - 1) = true ↔ ∀ i < w, x.testBit i = true) := by
  decide

theorem full_signal_eq (b : VecBuffer) (sig : Nat) (info : VecBufferInfo)
    (h : b.infoOf sig = some info) :
    b.full_signal_has_changed sig =
      ((((b.bit_change.drop info.bit_change_start).take info.changeLen).drop
          (if info.bits % 8 == 0 then 0 else 1)).all (fun e => e == 255) &&
        (if 0 < (if info.bits % 8 == 0 then (0 : Nat) else 1) then
          ((b.bit_change.drop info.bit_change_start).take info.changeLen).headD 0 ==
            (1 <<< (info.bits % 8)) - 1
          else true)) := by
  simp only [VecBuffer.full_signal_has_changed, h]

/-- C2 amended: under the reachable-state bounds on the change bytes (each
byte below 256 and the last byte confined to the `bits % 8` valid low bits),
`full_signal_has_changed` returns true iff the width is at most 8 or a
multiple of 8 AND every bit of the vector is marked. In particular, for a
width above 8 that is not a multiple of 8 it never returns true — the scan
requires 0xff of the partial last byte and masks the first byte instead of
the last — so the early flush never fires for such signals. -/
theorem c2_full_signal_amended (b : VecBuffer) (sig : Nat) (info : VecBufferInfo)
    (hinfo : b.infoOf sig = some info)
    (hbits : 1 ≤ info.bits)
    (hwf : info.bit_change_start + info.changeLen ≤ b.bit_change.length)
    (hbyte : ∀ j < info.changeLen, listGet b.bit_change (info.bit_change_start + j) < 256)
    (hlast : info.bits % 8 ≠ 0 →
      listGet b.bit_change (info.bit_change_start + (info.changeLen - 1)) <
        2 ^ (info.bits % 8)) :
    (b.full_signal_has_changed sig = true ↔
      ((info.bits ≤ 8 ∨ info.bits % 8 = 0) ∧
        ∀ bit < info.bits, b.has_bit_changed info bit = true)) := by
  have hL : info.changeLen = (info.bits + 7) / 8 := rfl
  rw [full_signal_eq b sig info hinfo]
  have hlen := slice_length b.bit_change info.bit_change_start info.changeLen hwf
  by_cases h8 : info.bits % 8 = 0
  · have hskip : (info.bits % 8 == 0) = true := by simp [h8]
    rw [hskip]
    simp only [if_true, List.drop_zero, Nat.lt_irrefl, if_false, Bool.and_true]
    rw [all_iff_index, hlen]
    constructor
    · intro hall
      refine ⟨Or.inr h8, fun bit hbit => ?_⟩
      rw [hasBit_eq_testBit]
      have hj : bit / 8 < info.changeLen := by rw [hL]; omega
      have hv := hall (bit / 8) hj
      rw [slice_getD _ _ _ _ hj, beq_iff_eq] at hv
      rw [hv, show (255 : Nat) = 2 ^ 8 - 1 from rfl, Nat.testBit_two_pow_sub_one]
      exact decide_eq_true (Nat.mod_lt _ (by norm_num))
    · rintro ⟨-, hmk⟩ j hj
      rw [slice_getD _ _ _ _ hj]
      apply (byte255_iff _ (hbyte j hj)).mpr
      intro i hi
      have hbit : 8 * j + i < info.bits := by rw [hL] at hj; omega
      have := hmk (8 * j + i) hbit
      rw [hasBit_eq_testBit] at this
      have e1 : (8 * j + i) / 8 = j := by omega
      have e2 : (8 * j + i) % 8 = i := by omega
      rw [e1, e2] at this
      exact this
  · have hskip : (info.bits % 8 == 0) = false := by simp [h8]
    rw [hskip]
    simp only [Bool.false_eq_true, if_false, Nat.zero_lt_one, if_true]
    by_cases hW : info.bits < 8
    · have hL1 : info.changeLen = 1 := by rw [hL]; omega
      have hdrop : (((b.bit_change.drop info.bit_change_start).take info.changeLen).drop 1) =
          [] := by
        apply List.drop_eq_nil_of_le
        rw [hlen, hL1]
      rw [hdrop]
      simp only [List.all_nil, Bool.true_and]
      rw [headD_eq_getD, slice_getD _ _ _ _ (by omega : 0 < info.changeLen)]
      rw [Nat.one_shiftLeft]
      have hmod : info.bits % 8 = info.bits := Nat.mod_eq_of_lt hW
      rw [hmod]
      have hx := hlast h8
      rw [hL1, hmod] at hx
      simp only [Nat.sub_self, Nat.add_zero] at hx
      have hiff := partial_mask_iff info.bits hW _ hx
      rw [Nat.add_zero, hiff]
      constructor
      · intro hall
        refine ⟨Or.inl (by omega), fun bit hbit => ?_⟩
        rw [hasBit_eq_testBit]
        have e1 : bit / 8 = 0 := by omega
        have e2 : bit % 8 = bit := by omega
        rw [e1, e2, Nat.add_zero]
        exact hall bit hbit
      · rintro ⟨-, hmk⟩ i hi
        have := hmk i hi
        rw [hasBit_eq_testBit] at this
        have e1 : i / 8 = 0 := by omega
        have e2 : i % 8 = i := by omega
        rw [e1, e2, Nat.add_zero] at this
        exact this
    · have hL2 : 2 ≤ info.changeLen := by rw [hL]; omega
      constructor
      · intro htrue
        exfalso
        have hA := (Bool.and_eq_true ..).mp htrue |>.1
        rw [all_iff_index] at hA
        have hlen2 : (((b.bit_change.drop info.bit_change_start).take info.changeLen).drop
            1).length = info.changeLen - 1 := by
          rw [List.length_drop, hlen]
        have hidx : info.changeLen - 2 <
            (((b.bit_change.drop info.bit_change_start).take info.changeLen).drop
              1).length := by
          rw [hlen2]; omega
        have hv := hA (info.changeLen - 2) hidx
        rw [getD_drop, show 1 + (info.changeLen - 2) = info.changeLen - 1 by omega,
          show ((b.bit_change.drop info.bit_change_start).take info.changeLen).getD
            (info.changeLen - 1) 0 =
            listGet b.bit_change (info.bit_change_start + (info.changeLen - 1)) from
            slice_getD _ _ _ _ (by omega), beq_iff_eq] at hv
        have hsmall := hlast h8
        have hpow : 2 ^ (info.bits % 8) ≤ 2 ^ 7 :=
          Nat.pow_le_pow_right (by norm_num) (by omega)
        omega
      · rintro ⟨hor, -⟩
        rcases hor with h | h <;> omega

/-- C2 witness: the amended characterization applied to the 2-bit buffer
with both bits marked — the early-flush condition is then true, matching
the right-hand side. -/
theorem c2_full_signal_witness :
    ((c1Buffer.update_value 0 0 1).update_value 0 1 1).full_signal_has_changed 0 = true ↔
      ((2 ≤ 8 ∨ 2 % 8 = 0) ∧
        ∀ bit < 2,
          ((c1Buffer.update_value 0 0 1).update_value 0 1 1).has_bit_changed
            ⟨0, 0, 2, .nine⟩ bit = true) :=
  c2_full_signal_amended ((c1Buffer.update_value 0 0 1).update_value 0 1 1) 0
    ⟨0, 0, 2, .nine⟩ (by rfl) (by decide) (by decide) (by decide) (by decide)

theorem infoOf_congr (b2 b : VecBuffer) (h : b2.info = b.info) (s : Nat) :
    b2.infoOf s = b.infoOf s := by
  unfold VecBuffer.infoOf
  rw [h]

theorem hasSig_oob (b : VecBuffer) (s : Nat) (h : b.signal_change.length ≤ s / 8) :
    b.has_signal_changed s = false := by
  unfold VecBuffer.has_signal_changed
  rw [listGet_oob _ _ h]
  simp

theorem infoOf_oob (b : VecBuffer) (s : Nat) (h : b.info.length ≤ s) :
    b.infoOf s = none := by
  unfold VecBuffer.infoOf
  rw [List.getD_eq_getElem?_getD, List.getElem?_eq_none h]
  rfl

theorem processGo_spec : ∀ (l : List Nat) (b : VecBuffer),
    (∀ s, b.has_signal_changed s = true → s ∈ l) →
    (∀ s info, b.infoOf s = some info → ¬ cleanFor b info → b.has_signal_changed s = true) →
    (∀ s, b.has_signal_changed s = true → (b.infoOf s).isSome = true) →
    ((processGo b l).1.info = b.info ∧ (processGo b l).1.change_list = b.change_list) ∧
    (∀ s, (processGo b l).1.has_signal_changed s = false) ∧
    (∀ s info, (processGo b l).1.infoOf s = some info → cleanFor (processGo b l).1 info) := by
  intro l
  induction l with
  | nil =>
    intro b h1 h2 h3
    simp only [processGo]
    refine ⟨⟨by trivial, by trivial⟩, fun s => ?_, fun s info hi => ?_⟩
    · cases hb : b.has_signal_changed s
      · rfl
      · exact absurd (h1 s hb) (List.not_mem_nil s)
    · by_contra hnc
      have hb := h2 s info hi hnc
      exact absurd (h1 s hb) (List.not_mem_nil s)
  | cons x rest ih =>
    intro b h1 h2 h3
    by_cases hx : b.has_signal_changed x = true
    · have hsome := h3 x hx
      cases hinfo : b.infoOf x with
      | none =>
        rw [hinfo] at hsome
        simp at hsome
      | some info =>
        simp only [processGo, hx, if_true, hinfo]
        obtain ⟨hfi, hfd, hfl⟩ := gf_fields b x
        have h1x : ∀ s, (b.get_full_value_and_clear_changes x).2.has_signal_changed s =
            true → s ∈ rest := by
          intro s hs
          by_cases hsx : s = x
          · rw [hsx, gf_hasSig_self b x info hinfo] at hs
            cases hs
          · rw [gf_hasSig_other b x info s hinfo hsx] at hs
            rcases List.mem_cons.mp (h1 s hs) with he | hm
            · exact absurd he hsx
            · exact hm
        have h2x : ∀ s info2,
            (b.get_full_value_and_clear_changes x).2.infoOf s = some info2 →
            ¬ cleanFor (b.get_full_value_and_clear_changes x).2 info2 →
            (b.get_full_value_and_clear_changes x).2.has_signal_changed s = true := by
          intro s info2 hi2 hnc
          have hib : b.infoOf s = some info2 := by
            rw [← infoOf_congr _ b hfi s]
            exact hi2
          by_cases hsx : s = x
          · subst hsx
            have hieq : info2 = info := by
              rw [hib] at hinfo
              exact Option.some.inj hinfo
            subst hieq
            exfalso
            apply hnc
            intro j hj
            rw [gf_bit_change b s info2 hib]
            rw [if_pos ⟨Nat.le_add_right _ _, by omega⟩]
          · rw [gf_hasSig_other b x info s hinfo hsx]
            apply h2 s info2 hib
            intro hc
            apply hnc
            intro j hj
            rw [gf_bit_change b x info hinfo]
            by_cases hin : info.bit_change_start ≤ info2.bit_change_start + j ∧
                info2.bit_change_start + j < info.bit_change_start + info.changeLen
            · rw [if_pos hin]
            · rw [if_neg hin]
              exact hc j hj
        have h3x : ∀ s, (b.get_full_value_and_clear_changes x).2.has_signal_changed s =
            true → ((b.get_full_value_and_clear_changes x).2.infoOf s).isSome = true := by
          intro s hs
          rw [infoOf_congr _ b hfi s]
          by_cases hsx : s = x
          · rw [hsx, gf_hasSig_self b x info hinfo] at hs
            cases hs
          · rw [gf_hasSig_other b x info s hinfo hsx] at hs
            exact h3 s hs
        obtain ⟨⟨ri, rl⟩, rsig, rclean⟩ :=
          ih (b.get_full_value_and_clear_changes x).2 h1x h2x h3x
        exact ⟨⟨by rw [ri, hfi], by rw [rl, hfl]⟩, rsig, rclean⟩
    · simp only [processGo]
      rw [if_neg hx]
      exact ih b
        (fun s hs => (List.mem_cons.mp (h1 s hs)).resolve_left (fun he => hx (he ▸ hs)))
        h2 h3

/-- C4: for a buffer satisfying the change-buffer invariant, the
end-of-timestep flush leaves the change list empty, every signal-change
bit clear, and every described signal's bit-change bytes zero. -/
theorem c4_flush_completeness (b : VecBuffer) (hInv : BufferInv b) :
    (finish_time_step b).1.change_list = [] ∧
    (∀ s, (finish_time_step b).1.has_signal_changed s = false) ∧
    (∀ s info, (finish_time_step b).1.infoOf s = some info →
      cleanFor (finish_time_step b).1 info) := by
  obtain ⟨h1, h2, h3⟩ := hInv
  have key := processGo_spec b.change_list { b with change_list := [] } h1 h2 h3
  exact ⟨key.1.2, key.2.1, key.2.2⟩

/-- C4 witness: the flush postcondition at a concrete dirtied buffer (the
2-bit nine-state vector after one bit update). -/
theorem c4_flush_completeness_witness :
    (finish_time_step (c1Buffer.update_value 0 0 1)).1.change_list = [] ∧
    (∀ s, (finish_time_step (c1Buffer.update_value 0 0 1)).1.has_signal_changed s = false) ∧
    (∀ s info, (finish_time_step (c1Buffer.update_value 0 0 1)).1.infoOf s = some info →
      cleanFor (finish_time_step (c1Buffer.update_value 0 0 1)).1 info) := by
  apply c4_flush_completeness
  have hsc : (c1Buffer.update_value 0 0 1).signal_change.length = 1 := by rfl
  have hin : (c1Buffer.update_value 0 0 1).info.length = 1 := by rfl
  refine ⟨fun s hs => ?_, fun s info hi hnc => ?_, fun s hs => ?_⟩
  · by_cases h8 : s < 8
    · interval_cases s <;> revert hs <;> decide
    · rw [hasSig_oob _ _ (by rw [hsc]; omega)] at hs
      cases hs
  · by_cases h1s : s < 1
    · have hs0 : s = 0 := by omega
      subst hs0
      decide
    · rw [infoOf_oob _ _ (by rw [hin]; omega)] at hi
      cases hi
  · by_cases h8 : s < 8
    · interval_cases s <;> revert hs <;> decide
    · rw [hasSig_oob _ _ (by rw [hsc]; omega)] at hs
      cases hs

end Wellen
